import Mathlib

/-!
Shallow embedding of the Marome Investments finance backend (`src/server.js`)
and verification of its specification claims.

Numbers are modelled as exact rationals; where JavaScript's special values
(`NaN`, `±Infinity`) are semantically relevant (the `isNaN` guards of the
percent-change computations, JSON serialisation of heatmap cells) we use an
explicit `JSNum` type implementing IEEE-754 special-value propagation for the
operations the code performs (subtraction, division, multiplication).
Binary-double rounding is not modelled: display rounding (`toFixed`) is
idealised as exact decimal rounding, which no claim depends on.
-/

namespace Marome

/-- A JavaScript number: a finite rational, `Infinity`, `-Infinity`, or `NaN`.
Signed zero is collapsed to `0` (the code only compares with `=== 0`, which
JavaScript satisfies for `-0` as well). -/
inductive JSNum where
  | fin (q : ℚ)
  | inf
  | ninf
  | nan
deriving DecidableEq, Repr

namespace JSNum

/-- JavaScript `isNaN x`. -/
def isNaN : JSNum → Bool
  | nan => true
  | _ => false

/-- JavaScript `Number.isFinite x`. -/
def isFinite : JSNum → Bool
  | fin _ => true
  | _ => false

/-- JavaScript subtraction `a - b` restricted to special-value propagation;
finite arithmetic is exact (double overflow is not modelled). -/
def sub : JSNum → JSNum → JSNum
  | fin a, fin b => fin (a - b)
  | fin _, inf => ninf
  | fin _, ninf => inf
  | inf, fin _ => inf
  | inf, ninf => inf
  | inf, inf => nan
  | ninf, fin _ => ninf
  | ninf, inf => ninf
  | ninf, ninf => nan
  | _, _ => nan

/-- JavaScript division `a / b` (divisor `0` is `+0`). -/
def div : JSNum → JSNum → JSNum
  | fin a, fin b =>
      if b = 0 then (if a = 0 then nan else if a > 0 then inf else ninf)
      else fin (a / b)
  | fin _, inf => fin 0
  | fin _, ninf => fin 0
  | inf, fin b => if b ≥ 0 then inf else ninf
  | ninf, fin b => if b ≥ 0 then ninf else inf
  | _, _ => nan

/-- JavaScript multiplication `a * b`. -/
def mul : JSNum → JSNum → JSNum
  | fin a, fin b => fin (a * b)
  | inf, fin b => if b = 0 then nan else if b > 0 then inf else ninf
  | ninf, fin b => if b = 0 then nan else if b > 0 then ninf else inf
  | fin a, inf => if a = 0 then nan else if a > 0 then inf else ninf
  | fin a, ninf => if a = 0 then nan else if a > 0 then ninf else inf
  | inf, inf => inf
  | inf, ninf => ninf
  | ninf, inf => ninf
  | ninf, ninf => inf
  | _, _ => nan

end JSNum

/-- Accumulate a run of decimal digits into a natural number. -/
def digitsToNat (l : List Char) : ℕ :=
  l.foldl (fun a c => a * 10 + (c.toNat - 48)) 0

/-- Model of JavaScript `parseFloat` restricted to the inputs the system
produces and consumes: optional leading whitespace, optional sign, decimal
digits with an optional fractional part; any trailing garbage (such as a `%`
suffix) is ignored.  `none` models `NaN` (no parsable number prefix).
Exponent notation and the literal `"Infinity"` are outside this subset. -/
def parseFloatJS (s : String) : Option ℚ :=
  let l := s.toList.dropWhile (fun c => c.isWhitespace)
  let signAndRest : ℚ × List Char :=
    match l with
    | '-' :: t => (-1, t)
    | '+' :: t => (1, t)
    | _ => (1, l)
  let sign := signAndRest.1
  let l1 := signAndRest.2
  let ds := l1.takeWhile Char.isDigit
  let l2 := l1.dropWhile Char.isDigit
  let fs : List Char :=
    match l2 with
    | '.' :: t => t.takeWhile Char.isDigit
    | _ => []
  if ds.isEmpty && fs.isEmpty then none
  else some (sign * ((digitsToNat ds : ℚ) + (digitsToNat fs : ℚ) / (10 ^ fs.length)))

/-- Left-pad a two-digit decimal field (used by `toFixed2`). -/
def pad2 (n : ℕ) : String :=
  if n < 10 then "0" ++ toString n else toString n

/-- The value `⌊|q| * 10^k + 1/2⌋` as a natural number, written on the numerator and
denominator so that it evaluates by kernel reduction. -/
def roundMagAt (k : ℕ) (q : ℚ) : ℕ :=
  (2 * 10 ^ k * q.num.natAbs + q.den) / (2 * q.den)

/-- Model of `x.toFixed(2)` on a finite value: exact decimal rounding of the
magnitude (half away from zero), with the sign of the input. -/
def toFixed2 (q : ℚ) : String :=
  let m : ℕ := roundMagAt 2 q
  (if q < 0 then "-" else "") ++ toString (m / 100) ++ "." ++ pad2 (m % 100)

/-- A normalized mover record, as built by `formatMover` in `server.js`
(lines 125–132).  `rawChange` is the raw (unrounded) percent. -/
structure Mover where
  name : String
  symbol : String
  performance : String
  rawChange : ℚ
  type : String
  trend : String
deriving DecidableEq, Repr

/-- The `formatMover` helper (server.js lines 125–132). -/
def formatMover (name symbol : String) (pct : ℚ) (type : String) : Mover :=
  { name := name
    symbol := symbol
    performance := (if pct ≥ 0 then "+" else "") ++ toFixed2 pct ++ "%"
    rawChange := pct
    type := type
    trend := if pct ≥ 0 then "positive" else "negative" }

/-!
## All-movers aggregation: dedup by symbol (server.js lines 612–621)

The handler inserts every combined record into a JavaScript `Map` keyed by
symbol, replacing the incumbent only when the new record's `|rawChange|` is
strictly larger.  A `Map` preserves first-insertion order of keys, which we
model as an association list updated in place.
-/

/-- One step of the dedup loop: the effect of
`if (!map.has(item.symbol) || |item.rawChange| > |map.get(item.symbol).rawChange|) map.set(item.symbol, item)`
on the key-ordered entry list of the `Map`. -/
def updateMap : List Mover → Mover → List Mover
  | [], item => [item]
  | m :: rest, item =>
      if m.symbol = item.symbol then
        if |item.rawChange| > |m.rawChange| then item :: rest else m :: rest
      else m :: updateMap rest item

/-- The dedup pass over the combined list (server.js lines 612–621):
`[...map.values()]` after the `forEach` insertion loop. -/
def dedupMovers (l : List Mover) : List Mover :=
  l.foldl updateMap []

/-- The sort comparator of server.js line 624:
`(a, b) => Math.abs(b.rawChange) - Math.abs(a.rawChange)`, i.e. descending
absolute raw change. -/
def moverGE (a b : Mover) : Prop :=
  |b.rawChange| ≤ |a.rawChange|

instance : DecidableRel moverGE := fun a b => inferInstanceAs (Decidable (_ ≤ _))

instance : IsTotal Mover moverGE := ⟨fun a b => le_total _ _⟩

instance : IsTrans Mover moverGE := ⟨fun _ _ _ h1 h2 => le_trans h2 h1⟩

/-- Model of `[...map.values()].sort(...).slice(0, 10)` (server.js lines 623–625),
applied to an already-deduplicated list. -/
def rankMovers (d : List Mover) : List Mover :=
  (List.insertionSort moverGE d).take 10

/-- The full dedup–sort–truncate pipeline of the `/api/all-movers` handler. -/
def allMoversPipeline (combined : List Mover) : List Mover :=
  rankMovers (dedupMovers combined)

/-!
## Percent-change computation with `isNaN` guards

`/api/commodities` (server.js lines 322–335) and `fetchCommodityMovers`
(lines 496–503) share this shape: after `parseFloat`, skip the symbol when
`isNaN(close) || isNaN(previousClose) || previousClose === 0`, compute
`((close - previousClose) / previousClose) * 100`, and skip when the result
`isNaN`.  `none` models the `continue` (no record emitted); `some pct` means
a record with raw change `pct` is pushed.
-/

/-- The guarded percent-change computation of the commodity paths. -/
def commodityPct (close previousClose : JSNum) : Option JSNum :=
  if close.isNaN || previousClose.isNaN || previousClose = JSNum.fin 0 then none
  else
    let pct := ((close.sub previousClose).div previousClose).mul (JSNum.fin 100)
    if pct.isNaN then none else some pct

/-!
## Heatmap builder (server.js lines 641–705 and 710–786)

Both heatmap handlers run, per symbol and per timeframe, the same cell
computation on the filtered close series (closes are JSON numbers, hence
finite rationals).  The in-memory cell can be `Infinity`/`NaN` when the
baseline close is `0` (there is no zero guard here); `res.json` serialises
those to `null`, which `jsonCell` models.
-/

/-- The timeframe keys, in object-insertion order (server.js lines 650–655). -/
def heatmapTimeframes : List String := ["1h", "4h", "1d", "1w"]

/-- The lookback offset (`compareIndex`, server.js lines 671–675):
`-2` by default, deepened for 1h/4h/1w when the series is long enough. -/
def compareIndex (tf : String) (len : ℕ) : ℤ :=
  let c : ℤ := -2
  let c := if tf = "1h" ∧ 13 ≤ len then -13 else c
  let c := if tf = "4h" ∧ 17 ≤ len then -17 else c
  if tf = "1w" ∧ 8 ≤ len then -8 else c

/-- One heatmap cell before JSON serialisation (server.js lines 660–689):
`none` is the JavaScript `null` the cell variable is initialised to (kept on
fetch error, missing chart data, or a series shorter than 2).
`fetched = none` models a failed provider call or absent `chart.result[0]`. -/
def heatmapCellRaw (tf : String) (fetched : Option (List ℚ)) : Option JSNum :=
  match fetched with
  | none => none
  | some closes =>
      if 2 ≤ closes.length then
        let ci := compareIndex tf closes.length
        if ci.natAbs ≤ closes.length then
          match closes.getLast?, closes.get? (closes.length - ci.natAbs) with
          | some current, some previous =>
              some ((((JSNum.fin current).sub (JSNum.fin previous)).div
                (JSNum.fin previous)).mul (JSNum.fin 100))
          | _, _ => none
        else none
      else none

/-- JSON serialisation of a cell: `JSON.stringify` renders `NaN` and
`±Infinity` as `null`. -/
def jsonCell : Option JSNum → Option ℚ
  | some (JSNum.fin q) => some q
  | _ => none

/-- One symbol's heatmap row as it appears in the JSON response: a key for
every timeframe, each bound to a percent or `null`. -/
def heatmapRow (fetched : String → Option (List ℚ)) : List (String × Option ℚ) :=
  heatmapTimeframes.map fun tf => (tf, jsonCell (heatmapCellRaw tf (fetched tf)))

/-!
## Cache layer (server.js lines 36–56 and the per-endpoint guards)

Every cached endpoint follows the same pattern, e.g. lines 575–578:
`if (cache && Date.now() - cacheTime < TTL) return res.json(cache);` and, on
a successful fetch, `cache = result; cacheTime = Date.now();` (on a thrown
fetch the handler responds 500 and leaves the cache variables untouched).
Times are in milliseconds.
-/

def MOVERS_CACHE_TTL : ℤ := 2 * 60 * 1000

def GENERIC_TTL : ℤ := 60 * 1000

def HEATMAP_TTL : ℤ := 5 * 60 * 1000

def CALENDAR_TTL : ℤ := 6 * 60 * 60 * 1000

/-- One endpoint's cache slot: `payload = none` models the initial `null`
(every stored payload is an array or object, hence truthy). -/
structure CacheSlot (P : Type) where
  payload : Option P
  time : ℤ
deriving Repr

/-- The observable outcome of one request: the response, the cache slot
afterwards, and whether the provider fetch ran. -/
structure RequestOutcome (P : Type) where
  response : Except String P
  slot : CacheSlot P
  providerInvoked : Bool
deriving Repr

/-- The cache-miss path: run the provider fetch; store on success, leave the
slot untouched on failure (the handler responds 500). -/
def runFetch {P : Type} (st : CacheSlot P) (now : ℤ) : Except String P → RequestOutcome P
  | Except.ok q => ⟨Except.ok q, ⟨some q, now⟩, true⟩
  | Except.error e => ⟨Except.error e, st, true⟩

/-- One request against a cached endpooint with time-to-live `ttl`. -/
def serveCached {P : Type} (ttl : ℤ) (st : CacheSlot P) (now : ℤ)
    (fetch : Except String P) : RequestOutcome P :=
  match st.payload with
  | some p => if now - st.time < ttl then ⟨Except.ok p, st, false⟩ else runFetch st now fetch
  | none => runFetch st now fetch

/-!
## Asset-class mover fetchers and the all-movers join (server.js 447–636)

Provider I/O is abstracted as arguments: `none` for a whole-call failure
(the `catch` paths) and, per symbol, `none` for a failed or dataless call.
Numeric provider fields are modelled post-`parseFloat` as rationals; the
non-finite corners of that parse are covered by the `commodityPct` theorems.
-/

def FOREX_PAIRS : List String :=
  ["EUR/USD", "GBP/USD", "USD/JPY", "USD/ZAR", "EUR/ZAR", "GBP/ZAR", "AUD/USD", "USD/CHF"]

def EODHD_COMMODITIES : List (String × String) :=
  [("Gold", "GLD.US"), ("Silver", "SLV.US"), ("Platinum", "PPLT.US"), ("Crude Oil", "USO.US")]

def cryptoMoverSymbols : List (String × String) :=
  [("BTC", "BTC-USD"), ("ETH", "ETH-USD"), ("XRP", "XRP-USD"), ("SOL", "SOL-USD"), ("ADA", "ADA-USD")]

def INDEX_SYMBOLS : List (String × String) :=
  [("S&P 500", "^GSPC"), ("NASDAQ 100", "^NDX"), ("Dow Jones", "^DJI"), ("JSE Top 40", "^J200.JO")]

/-- A twelvedata quote as used by `fetchForexMovers`; `percent_change = none`
models an absent or empty (falsy) field, `some pc` a parsed numeric value. -/
structure TDQuote where
  percent_change : Option ℚ
deriving DecidableEq, Repr

/-- Model of `fetchForexMovers` (server.js lines 556–570): one quote call for all
pairs; the `catch` returns `[]`; per pair, a missing/falsy `percent_change`
maps to `null` and is dropped by `.filter(Boolean)`. -/
def fetchForexMovers (resp : Option (String → Option TDQuote)) : List Mover :=
  match resp with
  | none => []
  | some data =>
      (FOREX_PAIRS.map fun pair =>
        match data pair with
        | some d =>
            match d.percent_change with
            | some pc => some (formatMover pair pair pc "Forex")
            | none => none
        | none => none).reduceOption

/-- An EODHD screener row as used by `fetchEodTopStocks`;
`change_percent = none` models a nullish field (`?? 0`). -/
structure StockItem where
  name : Option String
  code : String
  change_percent : Option ℚ
deriving DecidableEq, Repr

/-- JavaScript `it.name || it.code` (empty string is falsy). -/
def stockDisplayName (it : StockItem) : String :=
  match it.name with
  | some n => if n = "" then it.code else n
  | none => it.code

/-- One side of `fetchEodTopStocks` (server.js lines 523–545): `none` models
a thrown request or a non-array response body, both of which yield
`{ items: [] }`. -/
def fetchSide (resp : Option (List StockItem)) : List Mover :=
  match resp with
  | none => []
  | some arr =>
      arr.map fun it => formatMover (stockDisplayName it) it.code (it.change_percent.getD 0) "Stock"

/-- Model of `fetchEodTopStocks` (server.js lines 520–551), flattened to its `items`
list: gainers then losers.  A missing API key (line 521) is modelled by both
sides being `none`. -/
def fetchEodTopStocks (gainers losers : Option (List StockItem)) : List Mover :=
  fetchSide gainers ++ fetchSide losers

/-- Model of `fetchEodCryptoMovers` (server.js lines 447–481): per symbol, skip on a
failed call, missing chart data, or a series shorter than 2; otherwise push
the formatted one-day percent change.  Division is exact rational division
(the closes are JSON numbers). -/
def fetchEodCryptoMovers (charts : String → Option (List ℚ)) : List Mover :=
  cryptoMoverSymbols.filterMap fun nv =>
    match charts nv.2 with
    | none => none
    | some closes =>
        if 2 ≤ closes.length then
          match closes.getLast?, closes.get? (closes.length - 2) with
          | some current, some previous =>
              some (formatMover nv.1 nv.2 (((current - previous) / previous) * 100) "Crypto")
          | _, _ => none
        else none

/-- Model of `fetchCommodityMovers` (server.js lines 486–515): per commodity, the
guarded computation `commodityPct` decides whether a record is pushed.  A
record is emitted exactly when `commodityPct` is `some`; for finite provider
inputs the result is then finite (see `commodityPct_finite_of_finite`), so
the wildcard branch below only absorbs the impossible non-finite case. -/
def fetchCommodityMovers (quotes : String → Option (JSNum × JSNum)) : List Mover :=
  EODHD_COMMODITIES.filterMap fun nv =>
    match quotes nv.2 with
    | none => none
    | some (c, p) =>
        match commodityPct c p with
        | some (JSNum.fin q) => some (formatMover nv.1 nv.1 q "Commodity")
        | _ => none

/-- The fail-tolerant join of `/api/all-movers` (server.js lines 580–610):
`Promise.allSettled` over the four fetchers, then `value`-guarded pushes
(`none` = the promise rejected, so `result.value` is undefined and the guard
skips it), then the sequential index loop's records are appended. -/
def combineAllMovers (stocks crypto fx com : Option (List Mover))
    (indices : List Mover) : List Mover :=
  stocks.getD [] ++ crypto.getD [] ++ fx.getD [] ++ com.getD [] ++ indices

/-!
## Currency-strength derivation (`/api/forex-strength`, server.js 244–292)

The handler reads `/api/forex` records, parses `item.change` with
`parseFloat`, and accumulates per-currency signed contributions and pair
counts in two objects initialised to `0` on the seven tracked currencies.
The objects are modelled as total functions; keys outside the seven tracked
currencies are never read back (in JavaScript they would hold `NaN`).
-/

/-- The records the strength handler consumes (only `pair` and `change` are
read). -/
structure FxPairRec where
  pair : String
  change : String
deriving DecidableEq, Repr

/-- JavaScript `s.split("/")` on the character list (same segments as
`String.prototype.split` with a one-character separator). -/
def splitOnSlash : List Char → List (List Char)
  | [] => [[]]
  | c :: t =>
      let r := splitOnSlash t
      if c = '/' then [] :: r
      else (c :: r.headD []) :: r.tail

/-- The base currency: `item.pair.split("/")[0]`. -/
def fxBase (p : String) : String := String.mk ((splitOnSlash p.toList).headD [])

/-- The quote currency: `item.pair.split("/")[1]` (`""` models `undefined`
when the pair has no slash). -/
def fxQuote (p : String) : String := String.mk (((splitOnSlash p.toList).drop 1).headD [])

def bumpCount (f : String → ℕ) (k : String) : String → ℕ :=
  fun x => if x = k then f k + 1 else f x

def addStrength (f : String → ℚ) (k : String) (v : ℚ) : String → ℚ :=
  fun x => if x = k then f k + v else f x

/-- One iteration of the `data.forEach` loop (server.js lines 252–266):
counts are bumped unconditionally; strength moves only when the parsed
percent is strictly positive or strictly negative (a `NaN` parse, modelled
as `none`, fails both comparisons). -/
def strengthStep (acc : (String → ℚ) × (String → ℕ)) (item : FxPairRec) :
    (String → ℚ) × (String → ℕ) :=
  let base := fxBase item.pair
  let quote := fxQuote item.pair
  let counts := bumpCount (bumpCount acc.2 base) quote
  match parseFloatJS item.change with
  | some pct =>
      if pct > 0 ∨ pct < 0 then (addStrength (addStrength acc.1 base pct) quote (-pct), counts)
      else (acc.1, counts)
  | none => (acc.1, counts)

def strengthFold (data : List FxPairRec) : (String → ℚ) × (String → ℕ) :=
  data.foldl strengthStep (fun _ => 0, fun _ => 0)

/-- The seven tracked currencies, in object-key order (server.js 249–250). -/
def strengthCurrencies : List String := ["USD", "EUR", "GBP", "JPY", "AUD", "CHF", "ZAR"]

/-- Model of `avg >= 0.3 ? "Strong" : avg <= -0.3 ? "Weak" : "Neutral"` (lines 280–283). -/
def classifyStrength (avg : ℚ) : String :=
  if avg ≥ 3 / 10 then "Strong" else if avg ≤ -(3 / 10) then "Weak" else "Neutral"

/-- The full `/api/forex-strength` computation, as the ordered key/value list
of the response object. -/
def forexStrength (data : List FxPairRec) : List (String × String) :=
  let s := strengthFold data
  strengthCurrencies.map fun cur =>
    let avg := if 0 < s.2 cur then s.1 cur / (s.2 cur : ℚ) else 0
    (cur, classifyStrength avg)

/-- Specification-level signed contribution of one record to one currency:
its percent change counted positively for the base, negatively for the
quote; an unparseable change contributes nothing. -/
def pairContribution (cur : String) (item : FxPairRec) : ℚ :=
  match parseFloatJS item.change with
  | some pct =>
      (if fxBase item.pair = cur then pct else 0) + (if fxQuote item.pair = cur then -pct else 0)
  | none => 0

/-- Specification-level pair count: how often the currency occurs in the
record's pair (base and quote each count once). -/
def pairCountOf (cur : String) (item : FxPairRec) : ℕ :=
  (if fxBase item.pair = cur then 1 else 0) + (if fxQuote item.pair = cur then 1 else 0)

/-!
## Economic calendar (`/api/economic-calendar`, server.js 791–924)

`new Date(...)` parsing and the date/time display formatting are external
collaborators; they are passed in as functions (`parseDate` returning `none`
models an invalid date, whose `>=` comparison is always false).
-/

/-- A raw FMP calendar event.  `""` in `event`/`country`/`date`/`impact`/
`currency` models a missing or empty (falsy) field; `actual`/`estimate`/
`previous` are passed through, `none` modelling `null`/`undefined`. -/
structure ProviderEvent where
  event : String
  country : String
  date : String
  impact : String
  actual : Option ℚ
  estimate : Option ℚ
  previous : Option ℚ
  currency : String
deriving DecidableEq, Repr

/-- The object returned per event (server.js lines 861–872).  Note the
`rawDateTime` field: it is part of the returned object and survives into the
JSON response. -/
structure CalEvent where
  date : String
  time : String
  country : String
  event : String
  actual : Option ℚ
  forecast : Option ℚ
  previous : Option ℚ
  importance : String
  currency : String
  rawDateTime : ℤ
deriving DecidableEq, Repr

/-- The `Object.keys` list of the returned event literal, in construction order. -/
def calEventKeys : List String :=
  ["date", "time", "country", "event", "actual", "forecast", "previous",
   "importance", "currency", "rawDateTime"]

/-- The field set claimed by the specification. -/
def claimedCalEventKeys : List String :=
  ["date", "time", "country", "event", "actual", "forecast", "previous",
   "importance", "currency"]

/-- JavaScript `s.toLowerCase()` (ASCII; the only characters the code compares are
ASCII). -/
def strLower (s : String) : String := String.mk (s.toList.map Char.toLower)

/-- JavaScript `s.toUpperCase()` (ASCII). -/
def strUpper (s : String) : String := String.mk (s.toList.map Char.toUpper)

/-- JavaScript `s.includes(t)`: `t` occurs as a contiguous substring of `s`. -/
def charsInclude (needle : List Char) : List Char → Bool
  | [] => needle.isEmpty
  | c :: t => needle.isPrefixOf (c :: t) || charsInclude needle t

def strIncludes (hay needle : String) : Bool :=
  charsInclude needle.toList hay.toList

def highKeywords : List String :=
  ["gdp", "interest rate", "nfp", "non-farm", "payroll", "cpi", "unemployment",
   "inflation", "fed", "fomc", "central bank", "rate decision", "ppi", "retail sales"]

def mediumKeywords : List String :=
  ["pmi", "trade balance", "consumer confidence", "manufacturing",
   "industrial production", "sentiment"]

/-- The importance assignment (server.js lines 835–859): provider impact
first (case-insensitively), then title keywords, defaulting to `"Low"`. -/
def importanceOf (impact eventName : String) : String :=
  let imp := strLower impact
  if imp = "high" then "High"
  else if imp = "medium" then "Medium"
  else if imp = "low" then "Low"
  else
    let en := strLower eventName
    if highKeywords.any (fun k => strIncludes en k) then "High"
    else if mediumKeywords.any (fun k => strIncludes en k) then "Medium"
    else "Low"

def majorCountries : List String :=
  ["US", "GB", "UK", "EU", "JP", "CN", "CA", "AU", "NZ", "CH", "ZA",
   "DE", "FR", "IT", "ES", "BR", "MX", "IN",
   "United States", "United Kingdom", "Euro Area", "Germany",
   "France", "Japan", "China", "Canada", "Australia", "South Africa"]

/-- The major-country filter (server.js lines 874–885). -/
def isMajorCountry (country : String) : Bool :=
  let cu := strUpper country
  majorCountries.any fun c => strIncludes cu (strUpper c) || strIncludes (strUpper c) cu

/-- The first filter (server.js lines 823–827): required fields present and
the parsed event date not before today's midnight. -/
def upcomingFilter (parseDate : String → Option ℤ) (todayMidnight : ℤ)
    (ev : ProviderEvent) : Bool :=
  ev.event != "" && ev.country != "" && ev.date != "" &&
    (match parseDate ev.date with
     | some d => decide (todayMidnight ≤ d)
     | none => false)

/-- The per-event mapping (server.js lines 828–873). -/
def mkCalEvent (parseDate : String → Option ℤ) (dateFmt timeFmt : ℤ → String)
    (ev : ProviderEvent) : CalEvent :=
  let dt := (parseDate ev.date).getD 0
  { date := dateFmt dt
    time := timeFmt dt
    country := ev.country
    event := ev.event
    actual := ev.actual
    forecast := ev.estimate
    previous := ev.previous
    importance := importanceOf ev.impact ev.event
    currency := if ev.currency = "" then ev.country else ev.currency
    rawDateTime := dt }

/-- The ascending sort comparator `(a, b) => a.rawDateTime - b.rawDateTime`. -/
def calLE (a b : CalEvent) : Prop := a.rawDateTime ≤ b.rawDateTime

instance : DecidableRel calLE := fun a b => inferInstanceAs (Decidable (_ ≤ _))

instance : IsTotal CalEvent calLE := ⟨fun _ _ => le_total _ _⟩

instance : IsTrans CalEvent calLE := ⟨fun _ _ _ h1 h2 => le_trans h1 h2⟩

/-- The whole `/api/economic-calendar` transformation (server.js 822–887):
filter → map → country filter → ascending sort → `slice(0, 100)`. -/
def economicCalendar (parseDate : String → Option ℤ) (dateFmt timeFmt : ℤ → String)
    (todayMidnight : ℤ) (events : List ProviderEvent) : List CalEvent :=
  (List.insertionSort calLE
    (((events.filter (upcomingFilter parseDate todayMidnight)).map
        (mkCalEvent parseDate dateFmt timeFmt)).filter
      (fun e => isMajorCountry e.country))).take 100

/-!
## SA-markets composition (`/api/sa-markets`, server.js 1106–1156)

The three self-referential HTTP calls are modelled by passing the three
upstream result lists as arguments; a failed call yields `[]` (the
`.catch(() => ({ data: [] }))`).
-/

/-- A record of `/api/indices` (server.js lines 170–176). -/
structure IdxRec where
  name : String
  symbol : String
  change : String
  latest : String
  rawChange : ℚ
deriving DecidableEq, Repr

/-- A record of `/api/forex` (server.js lines 215–222); `price` is the last
close, a number. -/
structure FxRec where
  pair : String
  name : String
  change : String
  trend : String
  price : ℚ
  rawChange : ℚ
deriving DecidableEq, Repr

/-- A record of `/api/commodities` (server.js lines 350–357); `price` is the
display string `displayPrice.toFixed(2)`. -/
structure CommRec where
  name : String
  symbol : String
  change : String
  trend : String
  price : String
  rawChange : ℚ
deriving DecidableEq, Repr

/-- A ZAR-converted commodity record (server.js lines 1128–1138). -/
structure CommZarRec where
  name : String
  priceZAR : String
  change : String
  rawChange : ℚ
deriving DecidableEq, Repr

structure NextEventStub where
  name : String
  date : String
deriving DecidableEq, Repr

/-- The `/api/sa-markets` response shape (server.js lines 1145–1150). -/
structure SAMarketsResp where
  indices : List IdxRec
  forex : List FxRec
  commodities : List CommZarRec
  nextEvent : NextEventStub
deriving DecidableEq, Repr

/-- JavaScript `x.toFixed(0)` on a finite value, idealised as exact decimal rounding of
the magnitude (half away from zero) with the sign of the input. -/
def toFixed0 (q : ℚ) : ℤ :=
  if q < 0 then -(roundMagAt 0 q : ℤ) else (roundMagAt 0 q : ℤ)

/-- Digit grouping from the right, on a reversed digit list. -/
def groupRev : List Char → List Char
  | a :: b :: c :: d :: rest => a :: b :: c :: ',' :: groupRev (d :: rest)
  | l => l

/-- Model of the display formatting `n.toFixed(0).replace(..., ",")`: thousands commas in
the digit part (the regex's `\B` keeps a leading minus sign unsplit). -/
def formatThousands (n : ℤ) : String :=
  (if n < 0 then "-" else "") ++
    String.mk ((groupRev (toString n.natAbs).toList.reverse).reverse)

/-- The ZAR price display string (server.js line 1134). -/
def formatZarPrice (q : ℚ) : String :=
  "R " ++ formatThousands (toFixed0 q)

/-- The USD→ZAR rate selection (server.js lines 1118–1126): the first
`USD/ZAR` record of the ZAR-filtered forex list, else the hard-coded 18.75. -/
def usdZarRateOf (allForex : List FxRec) : ℚ :=
  let zarForex := allForex.filter fun fx => strIncludes fx.pair "ZAR"
  match zarForex.find? (fun fx => fx.pair = "USD/ZAR") with
  | some fx => fx.price
  | none => 18.75

/-- One commodity's ZAR conversion (server.js lines 1128–1138).  `comm.price`
strings are produced by `toFixed(2)` and always parse; `getD 0` closes the
unreachable parse-failure branch. -/
def commodityToZAR (rate : ℚ) (comm : CommRec) : CommZarRec :=
  let priceUSD := (parseFloatJS comm.price).getD 0
  let priceZAR := priceUSD * rate
  { name := comm.name
    priceZAR := formatZarPrice priceZAR
    change := comm.change
    rawChange := comm.rawChange }

/-- The whole `/api/sa-markets` composition (server.js 1106–1156). -/
def saMarkets (allIndices : List IdxRec) (allForex : List FxRec)
    (allCommodities : List CommRec) : SAMarketsResp :=
  let jseIndices := allIndices.filter fun idx =>
    strIncludes idx.name "JSE" || strIncludes idx.symbol ".JO"
  let zarForex := allForex.filter fun fx => strIncludes fx.pair "ZAR"
  let rate := usdZarRateOf allForex
  { indices := jseIndices
    forex := zarForex
    commodities := allCommodities.map (commodityToZAR rate)
    nextEvent := { name := "SARB Interest Rate Decision", date := "March 27, 2026" } }

/-- Test fixture: a mover with raw percent `+2.0` (specification example). -/
def recPlus2 : Mover := formatMover "Alpha" "XYZ" 2 "Stock"

/-- Test fixture: a mover with raw percent `-5.0` sharing `recPlus2`'s symbol. -/
def recMinus5 : Mover := formatMover "Beta" "XYZ" (-5) "Crypto"

section
/- Batteries marks the arithmetic on `Rat` `@[irreducible]`; concrete
evaluation in proofs below (via `decide`/`rfl`) needs it unfolded. -/
attribute [local semireducible] Rat.add Rat.mul Rat.sub Rat.inv Rat.ofScientific

/-! ### Dedup lemmas -/

theorem mem_updateMap (acc : List Mover) (item : Mover) :
    ∀ m ∈ updateMap acc item, m ∈ acc ∨ m = item := by
  induction acc with
  | nil =>
      intro m h
      simp only [updateMap, List.mem_singleton] at h
      exact Or.inr h
  | cons a rest ih =>
      intro m h
      simp only [updateMap] at h
      by_cases hs : a.symbol = item.symbol
      · rw [if_pos hs] at h
        by_cases habs : |item.rawChange| > |a.rawChange|
        · rw [if_pos habs] at h
          rcases List.mem_cons.mp h with rfl | h'
          · exact Or.inr rfl
          · exact Or.inl (List.mem_cons_of_mem _ h')
        · rw [if_neg habs] at h
          exact Or.inl h
      · rw [if_neg hs] at h
        rcases List.mem_cons.mp h with rfl | h'
        · exact Or.inl (List.mem_cons_self _ _)
        · rcases ih m h' with h'' | h''
          · exact Or.inl (List.mem_cons_of_mem _ h'')
          · exact Or.inr h''

theorem updateMap_dominates (acc : List Mover) (item : Mover) :
    ∀ y ∈ acc,
      ∃ z ∈ updateMap acc item, z.symbol = y.symbol ∧ |y.rawChange| ≤ |z.rawChange| := by
  induction acc with
  | nil => intro y hy; cases hy
  | cons a rest ih =>
      intro y hy
      rcases List.mem_cons.mp hy with rfl | hy'
      · by_cases hs : y.symbol = item.symbol
        · by_cases habs : |item.rawChange| > |y.rawChange|
          · refine ⟨item, ?_, hs.symm, le_of_lt habs⟩
            simp only [updateMap, if_pos hs, if_pos habs]
            exact List.mem_cons_self _ _
          · refine ⟨y, ?_, rfl, le_refl _⟩
            simp only [updateMap, if_pos hs, if_neg habs]
            exact List.mem_cons_self _ _
        · refine ⟨y, ?_, rfl, le_refl _⟩
          simp only [updateMap, if_neg hs]
          exact List.mem_cons_self _ _
      · by_cases hs : a.symbol = item.symbol
        · refine ⟨y, ?_, rfl, le_refl _⟩
          simp only [updateMap, if_pos hs]
          by_cases habs : |item.rawChange| > |a.rawChange|
          · rw [if_pos habs]; exact List.mem_cons_of_mem _ hy'
          · rw [if_neg habs]; exact List.mem_cons_of_mem _ hy'
        · rcases ih y hy' with ⟨z, hz, hsym, hle⟩
          refine ⟨z, ?_, hsym, hle⟩
          simp only [updateMap, if_neg hs]
          exact List.mem_cons_of_mem _ hz

theorem updateMap_inserts (acc : List Mover) (item : Mover) :
    ∃ z ∈ updateMap acc item, z.symbol = item.symbol ∧ |item.rawChange| ≤ |z.rawChange| := by
  induction acc with
  | nil =>
      refine ⟨item, ?_, rfl, le_refl _⟩
      simp [updateMap]
  | cons a rest ih =>
      by_cases hs : a.symbol = item.symbol
      · by_cases habs : |item.rawChange| > |a.rawChange|
        · refine ⟨item, ?_, rfl, le_refl _⟩
          simp only [updateMap, if_pos hs, if_pos habs]
          exact List.mem_cons_self _ _
        · refine ⟨a, ?_, hs, le_of_not_gt habs⟩
          simp only [updateMap, if_pos hs, if_neg habs]
          exact List.mem_cons_self _ _
      · rcases ih with ⟨z, hz, hsym, hle⟩
        refine ⟨z, ?_, hsym, hle⟩
        simp only [updateMap, if_neg hs]
        exact List.mem_cons_of_mem _ hz

theorem updateMap_symbols_nodup (acc : List Mover) (item : Mover)
    (h : (acc.map Mover.symbol).Nodup) :
    ((updateMap acc item).map Mover.symbol).Nodup := by
  induction acc with
  | nil => simp [updateMap]
  | cons a rest ih =>
      simp only [List.map_cons, List.nodup_cons] at h
      by_cases hs : a.symbol = item.symbol
      · by_cases habs : |item.rawChange| > |a.rawChange|
        · simp only [updateMap, if_pos hs, if_pos habs, List.map_cons, List.nodup_cons]
          exact ⟨by rw [← hs]; exact h.1, h.2⟩
        · simp only [updateMap, if_pos hs, if_neg habs, List.map_cons, List.nodup_cons]
          exact h
      · simp only [updateMap, if_neg hs, List.map_cons, List.nodup_cons]
        constructor
        · intro hmem
          rcases List.mem_map.mp hmem with ⟨z, hz, hzs⟩
          rcases mem_updateMap rest item z hz with hz' | rfl
          · exact h.1 (List.mem_map.mpr ⟨z, hz', hzs⟩)
          · exact hs hzs.symm
        · exact ih h.2

theorem mem_foldl_updateMap {l : List Mover} :
    ∀ (acc : List Mover) (m : Mover), m ∈ l.foldl updateMap acc → m ∈ acc ∨ m ∈ l := by
  induction l with
  | nil => intro acc m h; exact Or.inl h
  | cons x rest ih =>
      intro acc m h
      rcases ih (updateMap acc x) m h with h' | h'
      · rcases mem_updateMap acc x m h' with h'' | rfl
        · exact Or.inl h''
        · exact Or.inr (List.mem_cons_self _ _)
      · exact Or.inr (List.mem_cons_of_mem _ h')

theorem foldl_updateMap_dominates {l : List Mover} :
    ∀ (acc : List Mover) (y : Mover), y ∈ acc →
      ∃ z ∈ l.foldl updateMap acc, z.symbol = y.symbol ∧ |y.rawChange| ≤ |z.rawChange| := by
  induction l with
  | nil => intro acc y hy; exact ⟨y, hy, rfl, le_refl _⟩
  | cons x rest ih =>
      intro acc y hy
      rcases updateMap_dominates acc x y hy with ⟨z, hz, hsym, hle⟩
      rcases ih (updateMap acc x) z hz with ⟨w, hw, hws, hwle⟩
      exact ⟨w, hw, hws.trans hsym, hle.trans hwle⟩

theorem foldl_updateMap_covers {l : List Mover} :
    ∀ (acc : List Mover) (x : Mover), x ∈ l →
      ∃ z ∈ l.foldl updateMap acc, z.symbol = x.symbol ∧ |x.rawChange| ≤ |z.rawChange| := by
  induction l with
  | nil => intro acc x hx; cases hx
  | cons a rest ih =>
      intro acc x hx
      rcases List.mem_cons.mp hx with rfl | hx'
      · rcases updateMap_inserts acc x with ⟨z, hz, hsym, hle⟩
        rcases foldl_updateMap_dominates (updateMap acc x) z hz with ⟨w, hw, hws, hwle⟩
        exact ⟨w, hw, hws.trans hsym, hle.trans hwle⟩
      · exact ih (updateMap acc a) x hx'

theorem foldl_updateMap_symbols_nodup {l : List Mover} :
    ∀ {acc : List Mover}, (acc.map Mover.symbol).Nodup →
      ((l.foldl updateMap acc).map Mover.symbol).Nodup := by
  induction l with
  | nil => intro acc h; exact h
  | cons x rest ih => intro acc h; exact ih (updateMap_symbols_nodup acc x h)

theorem dedupMovers_symbols_nodup (l : List Mover) :
    ((dedupMovers l).map Mover.symbol).Nodup :=
  foldl_updateMap_symbols_nodup (by simp)

/-- The record kept for a symbol dominates every input record sharing it. -/
theorem dedupMovers_max {l : List Mover} {m : Mover} (hm : m ∈ dedupMovers l) :
    ∀ x ∈ l, x.symbol = m.symbol → |x.rawChange| ≤ |m.rawChange| := by
  intro x hx hsym
  rcases foldl_updateMap_covers [] x hx with ⟨z, hz, hzs, hzle⟩
  have hnd := dedupMovers_symbols_nodup l
  have : z = m := List.inj_on_of_nodup_map hnd hz hm (by rw [hzs, hsym])
  exact this ▸ hzle

theorem dedupMovers_subset {l : List Mover} {m : Mover} (hm : m ∈ dedupMovers l) :
    m ∈ l := by
  rcases mem_foldl_updateMap [] m hm with h | h
  · cases h
  · exact h

theorem dedupMovers_covers {l : List Mover} {x : Mover} (hx : x ∈ l) :
    ∃ z ∈ dedupMovers l, z.symbol = x.symbol :=
  (foldl_updateMap_covers [] x hx).imp fun z ⟨hz, hs, _⟩ => ⟨hz, hs⟩

/-- C1: In the all-movers aggregation, for every combined list of mover
records, deduplication is by symbol and keeps, for each symbol, a record of
the input whose absolute `rawChange` is maximal among all records sharing
that symbol (ties may go either way), and every input symbol stays
represented; in particular, for two records with the same symbol and raw
percents +2.0 and −5.0, the kept record is the −5.0 one in both input
orders. -/
theorem c1_dedup_keeps_max_abs (l : List Mover) (m : Mover) (hm : m ∈ dedupMovers l) :
    m ∈ l
      ∧ (∀ x ∈ l, x.symbol = m.symbol → |x.rawChange| ≤ |m.rawChange|)
      ∧ (∀ x ∈ l, ∃ z ∈ dedupMovers l, z.symbol = x.symbol)
      ∧ dedupMovers [recPlus2, recMinus5] = [recMinus5]
      ∧ dedupMovers [recMinus5, recPlus2] = [recMinus5] :=
  ⟨dedupMovers_subset hm, dedupMovers_max hm, fun _ hx => dedupMovers_covers hx,
    by decide, by decide⟩

/-- Witness for `c1_dedup_keeps_max_abs` at the specification's ±2/−5 pair. -/
theorem c1_dedup_keeps_max_abs_witness :
    recMinus5 ∈ [recPlus2, recMinus5]
      ∧ (∀ x ∈ [recPlus2, recMinus5], x.symbol = recMinus5.symbol →
          |x.rawChange| ≤ |recMinus5.rawChange|)
      ∧ (∀ x ∈ [recPlus2, recMinus5],
          ∃ z ∈ dedupMovers [recPlus2, recMinus5], z.symbol = x.symbol)
      ∧ dedupMovers [recPlus2, recMinus5] = [recMinus5]
      ∧ dedupMovers [recMinus5, recPlus2] = [recMinus5] :=
  c1_dedup_keeps_max_abs [recPlus2, recMinus5] recMinus5 (by decide)

/-- C2: For every deduplicated list of mover records, the all-movers output
is that list sorted in descending order of absolute `rawChange` (ties in
either order: the output is the 10-prefix of some sorted permutation of the
input), it is itself sorted descending by absolute `rawChange`, its length is
`min` of the input length and 10, and with at least 10 input records the
length is exactly 10. -/
theorem c2_rank_sorted_truncated (d : List Mover) :
    (∃ s, d.Perm s ∧ s.Sorted moverGE ∧ rankMovers d = s.take 10)
      ∧ (rankMovers d).Sorted moverGE
      ∧ (rankMovers d).length = min d.length 10
      ∧ (10 ≤ d.length → (rankMovers d).length = 10)
      ∧ (∀ l, allMoversPipeline l = rankMovers (dedupMovers l)) := by
  have hperm : (List.insertionSort moverGE d).Perm d := List.perm_insertionSort moverGE d
  have hsorted : (List.insertionSort moverGE d).Sorted moverGE :=
    List.sorted_insertionSort moverGE d
  have hlen : (rankMovers d).length = min d.length 10 := by
    unfold rankMovers
    rw [List.length_take, List.length_insertionSort, min_comm]
  refine ⟨⟨List.insertionSort moverGE d, hperm.symm, hsorted, rfl⟩, ?_, hlen, ?_, fun _ => rfl⟩
  · exact hsorted.sublist (List.take_sublist 10 _)
  · intro h10
    rw [hlen]
    exact min_eq_right h10

/-- Witness for `c2_rank_sorted_truncated`: with 15 deduplicated records the
output length is exactly 10. -/
theorem c2_rank_sorted_truncated_witness :
    (rankMovers ((List.range 15).map
        (fun i => formatMover (toString i) (toString i) (i : ℚ) "Stock"))).length = 10 :=
  (c2_rank_sorted_truncated _).2.2.2.1 (by decide)

/-- For finite inputs the guarded commodity computation never produces a
non-finite percent: it either skips or yields a finite value. -/
theorem commodityPct_finite_of_finite (c p : ℚ) :
    commodityPct (JSNum.fin c) (JSNum.fin p) = none ∨
      ∃ q : ℚ, commodityPct (JSNum.fin c) (JSNum.fin p) = some (JSNum.fin q) := by
  by_cases hp : p = 0
  · subst hp
    left
    simp [commodityPct, JSNum.isNaN]
  · right
    refine ⟨(c - p) / p * 100, ?_⟩
    simp [commodityPct, JSNum.isNaN, JSNum.sub, JSNum.div, JSNum.mul, hp]

/-- C3 (counterexample to the claim as stated): with a non-finite `current`
(`Infinity`, as produced by `parseFloat("Infinity")`) and a finite non-zero
`previous`, the computation does NOT yield the skip/invalid outcome — it
returns `Infinity` and the caller pushes a record, because the guards only
test `isNaN` and `isNaN(Infinity)` is false. -/
theorem c3_nonfinite_current_not_skipped :
    commodityPct JSNum.inf (JSNum.fin 1) = some JSNum.inf
      ∧ commodityPct JSNum.inf (JSNum.fin 1) ≠ none := by
  constructor
  · decide
  · decide

/-- C3 (amended): for all finite `current`, `previous` with `previous ≠ 0`
the computation returns `(current − previous) / previous * 100`; it yields
the skip outcome (`none`, no record emitted, no exception) whenever
`previous == 0`, either input is `NaN`, or `previous` is non-finite (the
result is then `NaN`); however a non-finite `current` with finite non-zero
`previous` is NOT skipped: the percent is non-finite and a record is
emitted. -/
theorem c3_commodity_pct_amended (c p : ℚ) (hp : p ≠ 0) :
    commodityPct (JSNum.fin c) (JSNum.fin p) = some (JSNum.fin ((c - p) / p * 100))
      ∧ (∀ x : JSNum, commodityPct x (JSNum.fin 0) = none)
      ∧ (∀ x y : JSNum, x.isNaN = true → commodityPct x y = none)
      ∧ (∀ x y : JSNum, y.isFinite = false → commodityPct x y = none)
      ∧ (∀ q : ℚ, q ≠ 0 → ∃ r : JSNum, r.isFinite = false ∧
          commodityPct JSNum.inf (JSNum.fin q) = some r) := by
  refine ⟨?_, ?_, ?_, ?_, ?_⟩
  · simp [commodityPct, JSNum.isNaN, JSNum.sub, JSNum.div, JSNum.mul, hp]
  · intro x
    simp [commodityPct]
  · intro x y hx
    cases x <;> simp [JSNum.isNaN] at hx <;> simp [commodityPct, JSNum.isNaN]
  · intro x y hy
    cases y <;> simp [JSNum.isFinite] at hy
    · cases x <;> rfl
    · cases x <;> rfl
    · cases x <;> rfl
  · intro q hq
    rcases lt_or_gt_of_ne hq with h | h
    · refine ⟨JSNum.ninf, rfl, ?_⟩
      have h0 : ¬ (0 : ℚ) ≤ q := not_le.mpr h
      simp [commodityPct, JSNum.isNaN, JSNum.sub, JSNum.div, JSNum.mul, hq, h0]
    · refine ⟨JSNum.inf, rfl, ?_⟩
      have h0 : (0 : ℚ) ≤ q := le_of_lt h
      simp [commodityPct, JSNum.isNaN, JSNum.sub, JSNum.div, JSNum.mul, hq, h0]

/-- Witness for `c3_commodity_pct_amended` at `current = 110`,
`previous = 100`: the percent is exactly 10. -/
theorem c3_commodity_pct_amended_witness :
    commodityPct (JSNum.fin 110) (JSNum.fin 100) = some (JSNum.fin ((110 - 100) / 100 * 100)) :=
  (c3_commodity_pct_amended 110 100 (by decide)).1

/-! ### Heatmap lemmas -/

theorem compareIndex_1h (len : ℕ) :
    compareIndex "1h" len = if 13 ≤ len then -13 else -2 := by
  have hw : ("1h" : String) ≠ "1w" := by decide
  have h4 : ("1h" : String) ≠ "4h" := by decide
  unfold compareIndex
  rw [if_neg (fun h => hw h.1), if_neg (fun h => h4 h.1)]
  by_cases h13 : 13 ≤ len
  · rw [if_pos ⟨rfl, h13⟩, if_pos h13]
  · rw [if_neg (fun h => h13 h.2), if_neg h13]

theorem compareIndex_4h (len : ℕ) :
    compareIndex "4h" len = if 17 ≤ len then -17 else -2 := by
  have hw : ("4h" : String) ≠ "1w" := by decide
  have h1 : ("4h" : String) ≠ "1h" := by decide
  unfold compareIndex
  rw [if_neg (fun h => hw h.1)]
  by_cases h17 : 17 ≤ len
  · rw [if_pos ⟨rfl, h17⟩, if_pos h17]
  · rw [if_neg (fun h => h17 h.2), if_neg (fun h => h1 h.1), if_neg h17]

theorem compareIndex_1w (len : ℕ) :
    compareIndex "1w" len = if 8 ≤ len then -8 else -2 := by
  have h4 : ("1w" : String) ≠ "4h" := by decide
  have h1 : ("1w" : String) ≠ "1h" := by decide
  unfold compareIndex
  by_cases h8 : 8 ≤ len
  · rw [if_pos ⟨rfl, h8⟩, if_pos h8]
  · rw [if_neg (fun h => h8 h.2), if_neg (fun h => h4 h.1), if_neg (fun h => h1 h.1),
      if_neg h8]

theorem compareIndex_default (tf : String) (len : ℕ)
    (h1 : tf ≠ "1h") (h4 : tf ≠ "4h") (hw : tf ≠ "1w") :
    compareIndex tf len = -2 := by
  unfold compareIndex
  rw [if_neg (fun h => hw h.1), if_neg (fun h => h4 h.1), if_neg (fun h => h1 h.1)]

theorem compareIndex_natAbs_le (tf : String) (len : ℕ) (h2 : 2 ≤ len) :
    (compareIndex tf len).natAbs ≤ len := by
  simp only [compareIndex]
  split_ifs with hw h4 h1
  · simpa using hw.2
  · simpa using h4.2
  · simpa using h1.2
  · simpa using h2

theorem heatmapCellRaw_eq (tf : String) (closes : List ℚ) (cur prev : ℚ)
    (h2 : 2 ≤ closes.length)
    (hcur : closes.getLast? = some cur)
    (hprev : closes.get? (closes.length - (compareIndex tf closes.length).natAbs) = some prev) :
    heatmapCellRaw tf (some closes)
      = some ((((JSNum.fin cur).sub (JSNum.fin prev)).div (JSNum.fin prev)).mul
          (JSNum.fin 100)) := by
  simp only [heatmapCellRaw]
  rw [if_pos h2, if_pos (compareIndex_natAbs_le _ _ h2), hcur, hprev]

/-- A zero baseline close makes the serialised cell `null`: the percent is
`NaN` or `±Infinity`, which `JSON.stringify` renders as `null`. -/
theorem jsonCell_zero_prev (cur : ℚ) :
    jsonCell (some ((((JSNum.fin cur).sub (JSNum.fin 0)).div (JSNum.fin 0)).mul
      (JSNum.fin 100))) = none := by
  have h100ne : ¬ ((100 : ℚ) = 0) := by norm_num
  have h100pos : (0 : ℚ) < 100 := by norm_num
  rcases lt_trichotomy cur 0 with h | h | h
  · simp [JSNum.sub, JSNum.div, JSNum.mul, jsonCell, ne_of_lt h,
      not_lt.mpr (le_of_lt h), h100ne, h100pos]
  · simp [JSNum.sub, JSNum.div, JSNum.mul, jsonCell, h]
  · simp [JSNum.sub, JSNum.div, JSNum.mul, jsonCell, ne_of_gt h, h, h100ne, h100pos]

/-- C4: For every heatmap cell whose filtered close series has length ≥ 2,
the baseline is the sample at offset −2 by default; timeframe 1h uses −13
when the series has ≥ 13 samples, 4h uses −17 when ≥ 17, 1w uses −8 when
≥ 8, each falling back to −2 on a shorter series; and (for a valid non-zero
baseline) the cell value is `(last − baseline) / baseline * 100`. -/
theorem c4_heatmap_offsets (tf : String) (closes : List ℚ) (cur prev : ℚ)
    (h2 : 2 ≤ closes.length)
    (hcur : closes.getLast? = some cur)
    (hprev : closes.get? (closes.length - (compareIndex tf closes.length).natAbs) = some prev)
    (hp : prev ≠ 0) :
    heatmapCellRaw tf (some closes) = some (JSNum.fin ((cur - prev) / prev * 100))
      ∧ jsonCell (heatmapCellRaw tf (some closes)) = some ((cur - prev) / prev * 100)
      ∧ (∀ len, compareIndex "1h" len = if 13 ≤ len then -13 else -2)
      ∧ (∀ len, compareIndex "4h" len = if 17 ≤ len then -17 else -2)
      ∧ (∀ len, compareIndex "1w" len = if 8 ≤ len then -8 else -2)
      ∧ (∀ tf' len, tf' ≠ "1h" → tf' ≠ "4h" → tf' ≠ "1w" → compareIndex tf' len = -2) := by
  have hcell : heatmapCellRaw tf (some closes) = some (JSNum.fin ((cur - prev) / prev * 100)) := by
    rw [heatmapCellRaw_eq tf closes cur prev h2 hcur hprev]
    simp [JSNum.sub, JSNum.div, JSNum.mul, hp]
  exact ⟨hcell, by rw [hcell]; rfl, compareIndex_1h, compareIndex_4h, compareIndex_1w,
    compareIndex_default⟩

/-- Witness for `c4_heatmap_offsets`: a 3-sample daily series compares the
last close 4 against the second-to-last close 2, giving +100%. -/
theorem c4_heatmap_offsets_witness :
    heatmapCellRaw "1d" (some [1, 2, 4]) = some (JSNum.fin ((4 - 2) / 2 * 100)) :=
  (c4_heatmap_offsets "1d" [1, 2, 4] 4 2 (by decide) (by decide) (by decide) (by decide)).1

/-- C5: For every heatmap symbol row and every timeframe in
`{1h, 4h, 1d, 1w}`: the row carries exactly the four timeframe keys in
order; a cell whose series is too short (length < 2) or whose baseline price
is zero serialises to `null` (the key stays present, bound to `null`); and a
symbol whose series has length 1 on every timeframe yields `null` for all
four keys.  The computation is a total function: no error is raised. -/
theorem c5_heatmap_null_cells (fetched : String → Option (List ℚ)) :
    (heatmapRow fetched).map Prod.fst = heatmapTimeframes
      ∧ (∀ tf ∈ heatmapTimeframes,
          (tf, jsonCell (heatmapCellRaw tf (fetched tf))) ∈ heatmapRow fetched)
      ∧ (∀ tf closes, fetched tf = some closes → closes.length < 2 →
          jsonCell (heatmapCellRaw tf (fetched tf)) = none)
      ∧ (∀ tf closes, fetched tf = some closes →
          closes.get? (closes.length - (compareIndex tf closes.length).natAbs) = some 0 →
          jsonCell (heatmapCellRaw tf (fetched tf)) = none)
      ∧ ((∀ tf closes, fetched tf = some closes → closes.length ≤ 1) →
          heatmapRow fetched = heatmapTimeframes.map fun tf => (tf, none)) := by
  have hshortCell : ∀ tf closes, fetched tf = some closes → closes.length < 2 →
      jsonCell (heatmapCellRaw tf (fetched tf)) = none := by
    intro tf closes hf hlen
    rw [hf]
    simp only [heatmapCellRaw]
    rw [if_neg (by omega : ¬ 2 ≤ closes.length)]
    rfl
  refine ⟨?_, ?_, hshortCell, ?_, ?_⟩
  · unfold heatmapRow
    rw [List.map_map]
    exact (List.map_congr_left fun a _ => rfl).trans (List.map_id _)
  · intro tf htf
    exact List.mem_map.mpr ⟨tf, htf, rfl⟩
  · intro tf closes hf hprev
    rw [hf]
    by_cases h2 : 2 ≤ closes.length
    · have hne : closes ≠ [] := by
        intro h
        rw [h] at h2
        exact absurd h2 (by decide)
      obtain ⟨cur, hcur⟩ : ∃ cur, closes.getLast? = some cur := by
        cases hlast : closes.getLast? with
        | none => exact absurd (List.getLast?_eq_none.mp hlast) hne
        | some cur => exact ⟨cur, rfl⟩
      rw [heatmapCellRaw_eq tf closes cur 0 h2 hcur hprev]
      exact jsonCell_zero_prev cur
    · simp only [heatmapCellRaw]
      rw [if_neg h2]
      rfl
  · intro hshort
    unfold heatmapRow
    refine List.map_congr_left ?_
    intro tf _
    cases hf : fetched tf with
    | none => rfl
    | some closes =>
        have := hshortCell tf closes hf (by
          have := hshort tf closes hf
          omega)
        rw [hf] at this
        rw [this]

/-- Witness for `c5_heatmap_null_cells`: a single-sample series gives `null`
for every timeframe. -/
theorem c5_heatmap_null_cells_witness :
    heatmapRow (fun _ => some ([3] : List ℚ))
      = heatmapTimeframes.map (fun tf => (tf, none)) :=
  (c5_heatmap_null_cells _).2.2.2.2 (fun _ closes h =>
    (Option.some.inj h) ▸ (by decide : ([3] : List ℚ).length ≤ 1))

/-! ### Cache lemmas -/

theorem runFetch_payload_of_ok {P : Type} (st : CacheSlot P) (now : ℤ)
    (fetch : Except String P) (p : P) (st' : CacheSlot P) (b : Bool)
    (h : runFetch st now fetch = ⟨Except.ok p, st', b⟩) : st'.payload = some p := by
  cases fetch with
  | ok q =>
      simp only [runFetch] at h
      injection h with hr hs hb
      injection hr with hq
      rw [← hs, hq]
  | error e =>
      simp only [runFetch] at h
      injection h with hr hs hb
      exact absurd hr (by simp)

theorem serveCached_payload_of_ok {P : Type} (ttl : ℤ) (st : CacheSlot P) (now : ℤ)
    (fetch : Except String P) (p : P) (st' : CacheSlot P) (b : Bool)
    (h : serveCached ttl st now fetch = ⟨Except.ok p, st', b⟩) : st'.payload = some p := by
  cases hsp : st.payload with
  | some q =>
      simp only [serveCached, hsp] at h
      by_cases hlt : now - st.time < ttl
      · rw [if_pos hlt] at h
        injection h with hr hs hb
        injection hr with hq
        rw [← hs, hsp, hq]
      · rw [if_neg hlt] at h
        exact runFetch_payload_of_ok st now fetch p st' b h
  | none =>
      simp only [serveCached, hsp] at h
      exact runFetch_payload_of_ok st now fetch p st' b h

/-- C6: The per-endpoint TTLs are 120 s for all-movers, 60 s for the generic
per-class quotes (commodities included), 5 min for the heatmaps, and 6 h for
the calendar; a stored entry is reused exactly when `now − writtenAt < TTL`
(reuse returns the stored payload, leaves the slot untouched, and skips the
provider; otherwise the provider runs); and any second request landing
within the TTL window of the entry a first successful request left behind
returns the identical payload without invoking the provider — even a
provider primed to fail — and leaves the cache entry unmodified. -/
theorem c6_cache_reuse {P : Type} (ttl : ℤ) (st : CacheSlot P) (now t2 : ℤ)
    (fetch fetch2 : Except String P) (p : P) :
    (MOVERS_CACHE_TTL = 120000 ∧ GENERIC_TTL = 60000 ∧ HEATMAP_TTL = 300000
        ∧ CALENDAR_TTL = 21600000)
      ∧ (st.payload = some p → now - st.time < ttl →
          serveCached ttl st now fetch = ⟨Except.ok p, st, false⟩)
      ∧ (st.payload = some p → ¬(now - st.time < ttl) →
          (serveCached ttl st now fetch).providerInvoked = true)
      ∧ (st.payload = none → (serveCached ttl st now fetch).providerInvoked = true)
      ∧ (∀ st1 b1, serveCached ttl st now fetch = ⟨Except.ok p, st1, b1⟩ →
          t2 - st1.time < ttl →
          serveCached ttl st1 t2 fetch2 = ⟨Except.ok p, st1, false⟩) := by
  refine ⟨⟨rfl, rfl, rfl, rfl⟩, ?_, ?_, ?_, ?_⟩
  · intro h1 h2
    simp only [serveCached, h1]
    rw [if_pos h2]
  · intro h1 h2
    simp only [serveCached, h1]
    rw [if_neg h2]
    cases fetch <;> rfl
  · intro h1
    simp only [serveCached, h1]
    cases fetch <;> rfl
  · intro st1 b1 h1 h2
    have hp1 : st1.payload = some p :=
      serveCached_payload_of_ok ttl st now fetch p st1 b1 h1
    simp only [serveCached, hp1]
    rw [if_pos h2]

/-- Witness for `c6_cache_reuse`: a request 50 s after a miss-and-store
returns the stored payload, with the provider failing, without touching it. -/
theorem c6_cache_reuse_witness :
    serveCached GENERIC_TTL (⟨some 7, 100000⟩ : CacheSlot ℕ) 150000
        (Except.error "provider down")
      = ⟨Except.ok 7, ⟨some 7, 100000⟩, false⟩ :=
  (c6_cache_reuse GENERIC_TTL (⟨none, 0⟩ : CacheSlot ℕ) 100000 150000 (Except.ok 7)
      (Except.error "provider down") 7).2.2.2.2 ⟨some 7, 100000⟩ true rfl (by decide)

/-- C7: In the all-movers aggregation the four asset-class fetchers are
joined fail-tolerantly: a fetcher that rejects (`none`) contributes zero
records while every other fetcher's records are still included in the
combined list; and each per-class fetcher returns an empty list on a
wholly-failed run instead of raising. -/
theorem c7_fail_tolerant_join (stocks crypto fx com : Option (List Mover))
    (indices : List Mover) :
    (combineAllMovers none crypto fx com indices
        = crypto.getD [] ++ fx.getD [] ++ com.getD [] ++ indices)
      ∧ (combineAllMovers stocks none fx com indices
          = stocks.getD [] ++ fx.getD [] ++ com.getD [] ++ indices)
      ∧ (combineAllMovers stocks crypto none com indices
          = stocks.getD [] ++ crypto.getD [] ++ com.getD [] ++ indices)
      ∧ (combineAllMovers stocks crypto fx none indices
          = stocks.getD [] ++ crypto.getD [] ++ fx.getD [] ++ indices)
      ∧ (∀ m ∈ stocks.getD [], m ∈ combineAllMovers stocks crypto fx com indices)
      ∧ (∀ m ∈ crypto.getD [], m ∈ combineAllMovers stocks crypto fx com indices)
      ∧ (∀ m ∈ fx.getD [], m ∈ combineAllMovers stocks crypto fx com indices)
      ∧ (∀ m ∈ com.getD [], m ∈ combineAllMovers stocks crypto fx com indices)
      ∧ (∀ m ∈ indices, m ∈ combineAllMovers stocks crypto fx com indices)
      ∧ fetchForexMovers none = []
      ∧ fetchEodTopStocks none none = []
      ∧ fetchEodCryptoMovers (fun _ => none) = []
      ∧ fetchCommodityMovers (fun _ => none) = [] := by
  refine ⟨by simp [combineAllMovers], by simp [combineAllMovers], by simp [combineAllMovers],
    by simp [combineAllMovers], ?_, ?_, ?_, ?_, ?_, rfl, rfl, rfl, rfl⟩
  all_goals
    intro m hm
    simp only [combineAllMovers, List.mem_append]
    tauto

/-- Witness for `c7_fail_tolerant_join`: with stocks rejected, a crypto
record still reaches the combined list. -/
theorem c7_fail_tolerant_join_witness :
    recPlus2 ∈ combineAllMovers none (some [recPlus2]) none none [] :=
  (c7_fail_tolerant_join none (some [recPlus2]) none none []).2.2.2.2.2.1
    recPlus2 (by decide)

/-! ### Currency-strength lemmas -/

theorem bumpCount_apply (f : String → ℕ) (k x : String) :
    bumpCount f k x = f x + (if k = x then 1 else 0) := by
  unfold bumpCount
  rcases eq_or_ne x k with rfl | h
  · simp
  · simp [h, Ne.symm h]

theorem addStrength_apply (f : String → ℚ) (k x : String) (v : ℚ) :
    addStrength f k v x = f x + (if k = x then v else 0) := by
  unfold addStrength
  rcases eq_or_ne x k with rfl | h
  · simp
  · simp [h, Ne.symm h]

theorem strengthStep_strength (acc : (String → ℚ) × (String → ℕ)) (item : FxPairRec)
    (cur : String) :
    (strengthStep acc item).1 cur = acc.1 cur + pairContribution cur item := by
  simp only [strengthStep, pairContribution]
  cases hp : parseFloatJS item.change with
  | none => simp
  | some pct =>
      dsimp only
      by_cases hsign : pct > 0 ∨ pct < 0
      · rw [if_pos hsign]
        simp only [addStrength_apply]
        ring
      · rw [if_neg hsign]
        have hz : pct = 0 := by
          push_neg at hsign
          exact le_antisymm hsign.1 hsign.2
        simp [hz]

theorem strengthStep_count (acc : (String → ℚ) × (String → ℕ)) (item : FxPairRec)
    (cur : String) :
    (strengthStep acc item).2 cur = acc.2 cur + pairCountOf cur item := by
  simp only [strengthStep, pairCountOf]
  cases hp : parseFloatJS item.change with
  | none =>
      simp only [bumpCount_apply]
      ring
  | some pct =>
      dsimp only
      by_cases hsign : pct > 0 ∨ pct < 0
      · rw [if_pos hsign]
        simp only [bumpCount_apply]
        ring
      · rw [if_neg hsign]
        simp only [bumpCount_apply]
        ring

theorem foldl_strengthStep_spec (data : List FxPairRec) :
    ∀ (acc : (String → ℚ) × (String → ℕ)) (cur : String),
      ((data.foldl strengthStep acc).1 cur
          = acc.1 cur + (data.map (pairContribution cur)).sum)
        ∧ ((data.foldl strengthStep acc).2 cur
            = acc.2 cur + (data.map (pairCountOf cur)).sum) := by
  induction data with
  | nil => intro acc cur; simp
  | cons x rest ih =>
      intro acc cur
      simp only [List.foldl_cons, List.map_cons, List.sum_cons]
      obtain ⟨hs, hc⟩ := ih (strengthStep acc x) cur
      constructor
      · rw [hs, strengthStep_strength]
        ring
      · rw [hc, strengthStep_count]
        ring

/-- C8: For every list of forex pair records, the strength derivation
attributes each record's parsed percent change positively to its base
currency and negatively to its quote currency, counts the record toward both
currencies, averages per currency over its pair count, and classifies the
average as Strong (≥ 0.3), Weak (≤ −0.3) or Neutral; a currency in no pair
averages 0 and reports Neutral instead of being omitted; and on the
specification's example EUR/USD +1.00% / GBP/USD −1.00%, USD is Neutral, EUR
Strong and GBP Weak. -/
theorem c8_currency_strength (data : List FxPairRec) :
    (forexStrength data = strengthCurrencies.map fun cur =>
        (cur, classifyStrength
          (if 0 < (data.map (pairCountOf cur)).sum then
            (data.map (pairContribution cur)).sum / (((data.map (pairCountOf cur)).sum : ℕ) : ℚ)
          else 0)))
      ∧ (∀ cur ∈ strengthCurrencies,
          (∀ i ∈ data, fxBase i.pair ≠ cur ∧ fxQuote i.pair ≠ cur) →
          (cur, "Neutral") ∈ forexStrength data)
      ∧ (∀ avg : ℚ, (avg ≥ 3 / 10 → classifyStrength avg = "Strong")
          ∧ (avg ≤ -(3 / 10) → classifyStrength avg = "Weak")
          ∧ (-(3 / 10) < avg → avg < 3 / 10 → classifyStrength avg = "Neutral"))
      ∧ forexStrength [⟨"EUR/USD", "+1.00%"⟩, ⟨"GBP/USD", "-1.00%"⟩]
          = [("USD", "Neutral"), ("EUR", "Strong"), ("GBP", "Weak"), ("JPY", "Neutral"),
             ("AUD", "Neutral"), ("CHF", "Neutral"), ("ZAR", "Neutral")] := by
  have hmain : forexStrength data = strengthCurrencies.map fun cur =>
      (cur, classifyStrength
        (if 0 < (data.map (pairCountOf cur)).sum then
          (data.map (pairContribution cur)).sum / (((data.map (pairCountOf cur)).sum : ℕ) : ℚ)
        else 0)) := by
    unfold forexStrength
    refine List.map_congr_left ?_
    intro cur _
    obtain ⟨hs, hc⟩ := foldl_strengthStep_spec data (fun _ => 0, fun _ => 0) cur
    simp only [strengthFold] at *
    rw [hs, hc]
    simp
  refine ⟨hmain, ?_, ?_, by decide⟩
  · intro cur hcur hnone
    have hcount : (data.map (pairCountOf cur)).sum = 0 := by
      refine List.sum_eq_zero ?_
      intro x hx
      rcases List.mem_map.mp hx with ⟨i, hi, rfl⟩
      unfold pairCountOf
      rw [if_neg (hnone i hi).1, if_neg (hnone i hi).2]
      rfl
    rw [hmain]
    refine List.mem_map.mpr ⟨cur, hcur, ?_⟩
    rw [hcount]
    norm_num [classifyStrength]
  · intro avg
    refine ⟨?_, ?_, ?_⟩
    · intro h
      unfold classifyStrength
      rw [if_pos h]
    · intro h
      unfold classifyStrength
      rw [if_neg (by linarith), if_pos h]
    · intro h1 h2
      unfold classifyStrength
      rw [if_neg (by linarith), if_neg (by linarith)]

/-- Witness for `c8_currency_strength`: JPY occurs in no pair of the example
data and reports Neutral. -/
theorem c8_currency_strength_witness :
    ("JPY", "Neutral") ∈ forexStrength [⟨"EUR/USD", "+1.00%"⟩] :=
  (c8_currency_strength [⟨"EUR/USD", "+1.00%"⟩]).2.1 "JPY" (by decide) (by decide)

/-! ### Calendar lemmas -/

/-- C9 (counterexample to the claim as stated): the handler's returned event
objects carry a tenth field, `rawDateTime`, beyond the nine fields the claim
allows — at a concrete one-event input the endpoint returns an event whose
key set is `calEventKeys`, which includes `"rawDateTime"`. -/
theorem c9_raw_datetime_leaks :
    economicCalendar (fun _ => some 42) (fun _ => "2026-03-01") (fun _ => "08:30") 0
        [⟨"GDP Growth Rate", "US", "2026-03-01", "high", none, none, none, "USD"⟩]
      = [⟨"2026-03-01", "08:30", "US", "GDP Growth Rate", none, none, none, "High", "USD", 42⟩]
      ∧ calEventKeys ≠ claimedCalEventKeys
      ∧ "rawDateTime" ∈ calEventKeys := by
  refine ⟨by decide, by decide, by decide⟩

/-- C9 (amended): the economic-calendar endpoint returns at most 100 events,
each derived from a provider event that parses to an upcoming date
(`todayMidnight ≤ date`) and passes the major-country filter, sorted
ascending by date-time; each returned event has the nine claimed fields plus
the additional `rawDateTime` field; importance comes from the provider
impact (case-insensitively high/medium/low), else from title keywords,
defaulting to Low. -/
theorem c9_calendar_amended (parseDate : String → Option ℤ) (dateFmt timeFmt : ℤ → String)
    (tm : ℤ) (events : List ProviderEvent) :
    (economicCalendar parseDate dateFmt timeFmt tm events).length ≤ 100
      ∧ (economicCalendar parseDate dateFmt timeFmt tm events).Sorted calLE
      ∧ (∀ e ∈ economicCalendar parseDate dateFmt timeFmt tm events,
          ∃ ev ∈ events, e = mkCalEvent parseDate dateFmt timeFmt ev
            ∧ isMajorCountry e.country = true
            ∧ e.importance = importanceOf ev.impact ev.event
            ∧ ∃ d, parseDate ev.date = some d ∧ tm ≤ d ∧ e.rawDateTime = d)
      ∧ calEventKeys = claimedCalEventKeys ++ ["rawDateTime"]
      ∧ (∀ impact name, strLower impact = "high" → importanceOf impact name = "High")
      ∧ (∀ impact name, strLower impact = "medium" → importanceOf impact name = "Medium")
      ∧ (∀ impact name, strLower impact = "low" → importanceOf impact name = "Low")
      ∧ (∀ impact name, strLower impact ≠ "high" → strLower impact ≠ "medium" →
          strLower impact ≠ "low" →
          ((highKeywords.any fun k => strIncludes (strLower name) k) = true →
              importanceOf impact name = "High")
            ∧ ((highKeywords.any fun k => strIncludes (strLower name) k) = false →
                (mediumKeywords.any fun k => strIncludes (strLower name) k) = true →
                importanceOf impact name = "Medium")
            ∧ ((highKeywords.any fun k => strIncludes (strLower name) k) = false →
                (mediumKeywords.any fun k => strIncludes (strLower name) k) = false →
                importanceOf impact name = "Low")) := by
  refine ⟨?_, ?_, ?_, by decide, ?_, ?_, ?_, ?_⟩
  · unfold economicCalendar
    rw [List.length_take]
    exact min_le_left _ _
  · exact List.Pairwise.sublist (List.take_sublist _ _)
      (List.sorted_insertionSort calLE _)
  · intro e he
    have h1 : e ∈ List.insertionSort calLE
        (((events.filter (upcomingFilter parseDate tm)).map
            (mkCalEvent parseDate dateFmt timeFmt)).filter
          (fun e => isMajorCountry e.country)) := List.mem_of_mem_take he
    have h2 := (List.perm_insertionSort calLE _).mem_iff.mp h1
    obtain ⟨h3, hmaj⟩ := List.mem_filter.mp h2
    obtain ⟨ev, hev, heq⟩ := List.mem_map.mp h3
    obtain ⟨hevents, hupc⟩ := List.mem_filter.mp hev
    subst heq
    refine ⟨ev, hevents, rfl, hmaj, rfl, ?_⟩
    unfold upcomingFilter at hupc
    cases hpd : parseDate ev.date with
    | none =>
        rw [hpd] at hupc
        simp at hupc
    | some d =>
        rw [hpd] at hupc
        simp only [Bool.and_eq_true, decide_eq_true_eq] at hupc
        exact ⟨d, rfl, hupc.2, by simp [mkCalEvent, hpd]⟩
  · intro impact name h
    simp only [importanceOf]
    rw [if_pos h]
  · intro impact name h
    simp only [importanceOf]
    rw [if_neg (by rw [h]; decide), if_pos h]
  · intro impact name h
    simp only [importanceOf]
    rw [if_neg (by rw [h]; decide), if_neg (by rw [h]; decide), if_pos h]
  · intro impact name h1 h2 h3
    refine ⟨?_, ?_, ?_⟩
    · intro hk
      simp only [importanceOf]
      rw [if_neg h1, if_neg h2, if_neg h3, if_pos hk]
    · intro hk hm
      simp only [importanceOf]
      rw [if_neg h1, if_neg h2, if_neg h3, if_neg (by rw [hk]; decide), if_pos hm]
    · intro hk hm
      simp only [importanceOf]
      rw [if_neg h1, if_neg h2, if_neg h3, if_neg (by rw [hk]; decide),
        if_neg (by rw [hm]; decide)]

/-- Witness for `c9_calendar_amended` at a concrete one-event input. -/
theorem c9_calendar_amended_witness :
    (economicCalendar (fun _ => some 42) (fun _ => "2026-03-01") (fun _ => "08:30") 0
        [⟨"GDP Growth Rate", "US", "2026-03-01", "high", none, none, none, "USD"⟩]).length
      ≤ 100 :=
  (c9_calendar_amended (fun _ => some 42) (fun _ => "2026-03-01") (fun _ => "08:30") 0
    [⟨"GDP Growth Rate", "US", "2026-03-01", "high", none, none, none, "USD"⟩]).1

/-! ### SA-markets lemmas -/

theorem find?_filter_of_imp {α : Type} (l : List α) (p q : α → Bool)
    (h : ∀ x, p x = true → q x = true) :
    (l.filter q).find? p = l.find? p := by
  induction l with
  | nil => rfl
  | cons a t ih =>
      by_cases hq : q a
      · rw [List.filter_cons_of_pos hq]
        by_cases hp : p a
        · rw [List.find?_cons_of_pos (List.filter q t) hp, List.find?_cons_of_pos t hp]
        · rw [List.find?_cons_of_neg (List.filter q t) hp, List.find?_cons_of_neg t hp, ih]
      · rw [List.filter_cons_of_neg hq]
        have hp : ¬ p a = true := fun hpa => hq (h a hpa)
        rw [List.find?_cons_of_neg t hp, ih]

theorem usdZarRateOf_find (allForex : List FxRec) :
    usdZarRateOf allForex
      = match allForex.find? (fun fx => fx.pair = "USD/ZAR") with
        | some fx => fx.price
        | none => 18.75 := by
  simp only [usdZarRateOf]
  rw [find?_filter_of_imp]
  intro x hx
  have hx' : x.pair = "USD/ZAR" := of_decide_eq_true hx
  rw [hx']
  decide

/-- C10: In the sa-markets composition, the commodity USD→ZAR conversion
uses the price of the first forex record whose pair is exactly `USD/ZAR`,
and the hard-coded fallback rate 18.75 when no such record exists (e.g. when
the upstream forex fetch failed and returned an empty list); the response
always carries all four components (indices, forex, commodities, nextEvent). -/
theorem c10_sa_markets (allIndices : List IdxRec) (allForex : List FxRec)
    (allCommodities : List CommRec) :
    ((∀ fx ∈ allForex, fx.pair ≠ "USD/ZAR") → usdZarRateOf allForex = 18.75)
      ∧ (∀ r, allForex.find? (fun fx => fx.pair = "USD/ZAR") = some r →
          usdZarRateOf allForex = r.price)
      ∧ (saMarkets allIndices allForex allCommodities).commodities
          = allCommodities.map (commodityToZAR (usdZarRateOf allForex))
      ∧ (saMarkets allIndices allForex allCommodities).forex
          = allForex.filter (fun fx => strIncludes fx.pair "ZAR")
      ∧ (saMarkets allIndices allForex allCommodities).indices
          = allIndices.filter (fun idx =>
              strIncludes idx.name "JSE" || strIncludes idx.symbol ".JO")
      ∧ (saMarkets allIndices allForex allCommodities).nextEvent
          = ⟨"SARB Interest Rate Decision", "March 27, 2026"⟩ := by
  refine ⟨?_, ?_, rfl, rfl, rfl, rfl⟩
  · intro h
    rw [usdZarRateOf_find]
    have hnone : allForex.find? (fun fx => fx.pair = "USD/ZAR") = none := by
      rw [List.find?_eq_none]
      intro x hx
      simp [h x hx]
    rw [hnone]
  · intro r hr
    rw [usdZarRateOf_find, hr]

/-- Witness for `c10_sa_markets`: an empty forex list (failed upstream
fetch) falls back to the 18.75 rate. -/
theorem c10_sa_markets_witness : usdZarRateOf [] = 18.75 :=
  (c10_sa_markets [] [] []).1 (fun fx hfx => absurd hfx (List.not_mem_nil fx))

end

end Marome
